import Mathlib

/-!
Verification of the redis-manager connection-pool library.

The definitions below are a shallow embedding of the Python sources
`src/redis_manager/redis_connection.py`, `src/redis_manager/config.py` and
`src/redis_manager/redis_manager.py`.  Python objects become Lean structures;
object identity is modelled by a numeric `id` field (fresh ids are drawn from a
manager-level counter); in-place mutation becomes explicit state passing;
exceptions become `Except RMError`; wall-clock time is an explicit `Int`
parameter; network effects (whether a ping succeeds, whether a fresh connection
becomes ready within its budget) are explicit boolean oracles.  The embedding
is sequential: each public call runs to completion atomically, which matches
the cooperative single-loop scheduling model of the code, and leases acquired
by `get_client` are modelled as a separate acquire step followed later by a
release step.
-/

set_option autoImplicit false

namespace RedisManagerModel

/-- Errors raised by the embedded code, one constructor per Python exception
class that the modelled paths can raise. -/
inductive RMError where
  /-- Python `ValueError` ("Invalid node Redis URL"). -/
  | valueError
  /-- `NoHealthyPoolsException`. -/
  | noHealthyPools
  /-- `InvalidPoolArguments`. -/
  | invalidPoolArguments
  /-- Python `AttributeError` (access to an attribute that was never set). -/
  | attributeError
deriving DecidableEq

/-- Values stored in option maps (`config.py` holds booleans, numbers and one
nested keep-alive dictionary; callers may supply further values). -/
inductive OptVal where
  | b (x : Bool)
  | n (x : Int)
  | keepaliveOpts
deriving DecidableEq

/-- An option map: a Python `dict` in insertion order. -/
abbrev OptMap := List (String × OptVal)

/-- `config.DEFAULT_POOL_OPTIONS`. -/
def DEFAULT_POOL_OPTIONS : OptMap :=
  [("socket_keepalive", OptVal.b true),
   ("socket_keepalive_options", OptVal.keepaliveOpts),
   ("decode_responses", OptVal.b true),
   ("retry_on_timeout", OptVal.b true),
   ("health_check_interval", OptVal.n 60),
   ("socket_connect_timeout", OptVal.n 5)]

/-- `config.DEFAULT_CLUSTER_POOL_OPTIONS`. -/
def DEFAULT_CLUSTER_POOL_OPTIONS : OptMap :=
  [("decode_responses", OptVal.b true),
   ("health_check_interval", OptVal.n 60),
   ("socket_connect_timeout", OptVal.n 5),
   ("socket_keepalive", OptVal.b true),
   ("ssl", OptVal.b false)]

/-- `config.VALID_POOL_ARGS = set(DEFAULT_POOL_OPTIONS.keys())`. -/
def VALID_POOL_ARGS : List String := DEFAULT_POOL_OPTIONS.map Prod.fst

/-- `config.VALID_CLUSTER_ARGS`: the five cluster-only keys plus
`VALID_POOL_ARGS`. -/
def VALID_CLUSTER_ARGS : List String :=
  ["require_full_coverage",
   "read_from_replicas",
   "reinitialize_steps",
   "cluster_error_retry_attempts",
   "connection_error_retry_attempts"] ++ VALID_POOL_ARGS

/-- A cluster startup node (`redis.asyncio.cluster.ClusterNode`), opaque to the
manager. -/
structure ClusterNode where
  host : String
  port : Nat
deriving DecidableEq

/-- The opaque client handle built by `RedisConnection.__init__`: either
`Redis.from_url(url, max_connections, **merged)` or
`RedisCluster(startup_nodes, max_connections, **merged)`. -/
inductive ClientHandle where
  | single (url : String) (max_connections : Int) (options : OptMap)
  | cluster (startup_nodes : List ClusterNode) (max_connections : Int) (options : OptMap)
deriving DecidableEq

/-- `dict.update`: keys already present keep their position and take the new
value; new keys are appended in order. -/
def dictUpdate (base : OptMap) (upd : OptMap) : OptMap :=
  upd.foldl (fun acc kv =>
    if (acc.map Prod.fst).contains kv.1 then
      acc.map (fun kv₀ => if kv₀.1 = kv.1 then kv else kv₀)
    else acc ++ [kv]) base

/-- `RedisConnection._merge_pool_args(defaults, custom, valid_keys)`.  A falsy
`custom` (Python `None` or the empty dict) skips validation entirely; otherwise
any custom key outside `valid_keys` raises `InvalidPoolArguments`, and on
success the custom entries are merged over the defaults. -/
def merge_pool_args (defaults : OptMap) (custom : Option OptMap)
    (valid_keys : List String) : Except RMError OptMap :=
  match custom with
  | none => Except.ok defaults
  | some c =>
    if c = [] then Except.ok defaults
    else if c.all (fun kv => valid_keys.contains kv.1) then
      Except.ok (dictUpdate defaults c)
    else Except.error RMError.invalidPoolArguments

/-- One `RedisConnection` object.  `id` models Python object identity.
`pool_attr` models the dynamic attribute `pool`: the constructor never sets it,
so it is `none` on every object the code ever builds (reading it raises
`AttributeError`); only the recovery swap `pool.pool = new_pool.pool` would
write it. -/
structure RedisConnection where
  id : Nat
  redis_url : String
  use_cluster : Bool
  startup_nodes : Option (List ClusterNode)
  health_status : Bool
  active_calls : Int
  connection_duration : Int
  last_used : Int
  redis_client : ClientHandle
  pool_attr : Option ClientHandle
deriving DecidableEq

/-- Truthiness of the `startup_nodes` argument (`None` and `[]` are falsy). -/
def nodesTruthy (ns : Option (List ClusterNode)) : Bool :=
  match ns with
  | none => false
  | some l => !l.isEmpty

/-- `RedisConnection.__init__(redis_url, pool_size, pool_args, use_cluster,
startup_nodes)`.  The cluster branch is taken only when `use_cluster` holds AND
`startup_nodes` is truthy; each branch merges the caller's `pool_args` over the
mode's defaults, validating against the mode's allow-list.  Construction does
no network I/O: `health_status` starts false and `active_calls` at 0. -/
def RedisConnection.init (id : Nat) (redis_url : String) (pool_size : Int)
    (pool_args : Option OptMap) (use_cluster : Bool)
    (startup_nodes : Option (List ClusterNode)) : Except RMError RedisConnection :=
  if use_cluster && nodesTruthy startup_nodes then
    (merge_pool_args DEFAULT_CLUSTER_POOL_OPTIONS pool_args VALID_CLUSTER_ARGS).map
      (fun merged =>
        { id := id, redis_url := redis_url, use_cluster := use_cluster,
          startup_nodes := startup_nodes, health_status := false,
          active_calls := 0, connection_duration := 0, last_used := 0,
          redis_client :=
            ClientHandle.cluster (startup_nodes.getD []) pool_size merged,
          pool_attr := none })
  else
    (merge_pool_args DEFAULT_POOL_OPTIONS pool_args VALID_POOL_ARGS).map
      (fun merged =>
        { id := id, redis_url := redis_url, use_cluster := use_cluster,
          startup_nodes := startup_nodes, health_status := false,
          active_calls := 0, connection_duration := 0, last_used := 0,
          redis_client := ClientHandle.single redis_url pool_size merged,
          pool_attr := none })

/-- A per-URL list of pool entries. -/
abbrev PoolList := List RedisConnection

/-- The manager's `_pools` dictionary in insertion order. -/
abbrev Pools := List (String × PoolList)

/-- Dictionary lookup in `_pools` (also `in` membership when `isSome`). -/
def pools_lookup : Pools → String → Option PoolList
  | [], _ => none
  | (k, v) :: rest, u => if k = u then some v else pools_lookup rest u

/-- Dictionary write `_pools[u] = l`: replace in place, or append a new key. -/
def pools_set : Pools → String → PoolList → Pools
  | [], u, l => [(u, l)]
  | (k, v) :: rest, u, l =>
    if k = u then (k, l) :: rest else (k, v) :: pools_set rest u l

/-- A read `self._pools[u]` on the `defaultdict(list)`: returns the stored
list, INSERTING the key with an empty list when it is absent. -/
def pools_getdd (ps : Pools) (u : String) : PoolList × Pools :=
  match pools_lookup ps u with
  | some l => (l, ps)
  | none => ([], ps ++ [(u, [])])

/-- `RedisManager` state: the configuration fixed at `__init__` plus the
`_pools` mapping.  `nextId` supplies fresh object identities. -/
structure Manager where
  connection_pools_per_node_at_start : Nat
  max_connection_size : Int
  pool_args : Option OptMap
  use_cluster : Bool
  startup_nodes : Option (List ClusterNode)
  max_idle_time : Int
  pools : Pools
  nextId : Nat
deriving DecidableEq

/-- `RedisManager.__init__`: `_pools` starts empty. -/
def Manager.mkInit (floor : Nat) (size : Int) (pargs : Option OptMap)
    (uc : Bool) (sn : Option (List ClusterNode)) (max_idle : Int) : Manager :=
  { connection_pools_per_node_at_start := floor, max_connection_size := size,
    pool_args := pargs, use_cluster := uc, startup_nodes := sn,
    max_idle_time := max_idle, pools := [], nextId := 0 }

/-- One iteration of the loop in `_get_least_active_pool`: the running
`min_active_calls` starts at `float("inf")`, so with an empty accumulator the
guard `pool.health_status and pool.active_calls < min_active_calls` reduces to
the health test. -/
def least_active_step (acc : Option (RedisConnection × Int))
    (p : RedisConnection) : Option (RedisConnection × Int) :=
  match acc with
  | none => if p.health_status then some (p, p.active_calls) else none
  | some (b, mn) =>
    if p.health_status = true ∧ p.active_calls < mn then some (p, p.active_calls)
    else some (b, mn)

/-- The loop of `_get_least_active_pool`, left to right over the list. -/
def least_active_aux : Option (RedisConnection × Int) → PoolList →
    Option (RedisConnection × Int)
  | acc, [] => acc
  | acc, p :: ps => least_active_aux (least_active_step acc p) ps

/-- `_get_least_active_pool` (result and `min_active_calls`); `none` is the
`NoHealthyPoolsException` raise. -/
def get_least_active_pool (ps : PoolList) : Option (RedisConnection × Int) :=
  least_active_aux none ps

/-- `pool.active_calls += 1` on the (unique) entry with the given identity. -/
def incr_active_calls : PoolList → Nat → PoolList
  | [], _ => []
  | p :: ps, cid =>
    if p.id = cid then { p with active_calls := p.active_calls + 1 } :: ps
    else p :: incr_active_calls ps cid

/-- `p.active_calls -= 1` on the first entry that `== pool` (object identity),
as in the scan of `_release_pool`; no entry changes when the identity is
absent. -/
def decr_active_calls : PoolList → Nat → PoolList
  | [], _ => []
  | p :: ps, cid =>
    if p.id = cid then { p with active_calls := p.active_calls - 1 } :: ps
    else p :: decr_active_calls ps cid

/-- `connection.last_used = time.time()` on the entry with the given
identity. -/
def set_last_used : PoolList → Nat → Int → PoolList
  | [], _, _ => []
  | p :: ps, cid, now =>
    if p.id = cid then { p with last_used := now } :: ps
    else p :: set_last_used ps cid now

/-- The constructions of `_add_new_node_pools(url, count, ...)`: `count` fresh
`RedisConnection(url, max_connection_size, use_cluster, startup_nodes,
pool_args)` objects, with the resulting fresh-identity counter. -/
def mk_connections_aux (url : String) (size : Int) (pargs : Option OptMap)
    (uc : Bool) (sn : Option (List ClusterNode)) :
    Nat → Nat → Except RMError (PoolList × Nat)
  | nid, 0 => Except.ok ([], nid)
  | nid, Nat.succ k =>
    match RedisConnection.init nid url size pargs uc sn with
    | Except.error e => Except.error e
    | Except.ok c =>
      (mk_connections_aux url size pargs uc sn (nid + 1) k).map
        (fun pr => (c :: pr.1, pr.2))

/-- `wait_for_ready` success on a fresh connection followed by the
`pool.last_used = time.time()` stamp of `_add_new_node_pools`. -/
def mark_ready (now : Int) (c : RedisConnection) : RedisConnection :=
  { c with health_status := true, last_used := now }

/-- `add_node_pool(url, timeout)`.  Present URL: immediate return (this is the
only check — a URL leaked into the defaultdict with an empty list also returns
here).  Otherwise `_add_new_node_pools(url, floor, 1)` builds `floor` entries;
`ready` says whether the readiness gather succeeded within its budget.  Every
failure ends, after the condition wait times out, in `NoHealthyPoolsException`.
The `defaultdict` extend inserts the new key at the end of the mapping. -/
def add_node_pool (m : Manager) (url : String) (ready : Bool) (now : Int) :
    Except RMError Manager :=
  if (pools_lookup m.pools url).isSome then Except.ok m
  else
    match mk_connections_aux url m.max_connection_size m.pool_args
        m.use_cluster m.startup_nodes m.nextId
        m.connection_pools_per_node_at_start with
    | Except.error _ => Except.error RMError.noHealthyPools
    | Except.ok (cs, nid) =>
      if ready then
        Except.ok { m with
          pools := m.pools ++ [(url, cs.map (mark_ready now))],
          nextId := nid }
      else Except.error RMError.noHealthyPools

/-- `_get_pool(url, timeout)` in the sequential model (one pass of its loop;
with no concurrent peer to signal the condition variable, a growth failure ends
in the wait timing out).  Unknown URL raises `ValueError` before anything else;
no healthy entry raises `NoHealthyPoolsException`; an unsaturated least-active
entry gets its counter bumped and is returned; otherwise one new entry is
built (`_add_new_node_pools(url, 1, 1)`, readiness given by `growth_ready`),
appended, and `self._pools[url][-1]` gets the bump. -/
def get_pool (m : Manager) (url : String) (growth_ready : Bool) (now : Int) :
    Except RMError (Manager × Nat) :=
  match pools_lookup m.pools url with
  | none => Except.error RMError.valueError
  | some ps =>
    match get_least_active_pool ps with
    | none => Except.error RMError.noHealthyPools
    | some (p, minCalls) =>
      if minCalls < m.max_connection_size then
        Except.ok
          ({ m with pools := pools_set m.pools url (incr_active_calls ps p.id) },
           p.id)
      else
        match RedisConnection.init m.nextId url m.max_connection_size
            m.pool_args m.use_cluster m.startup_nodes with
        | Except.error e => Except.error e
        | Except.ok c₀ =>
          if growth_ready then
            let ps' := ps ++ [mark_ready now c₀]
            match ps'.getLast? with
            | none => Except.error RMError.noHealthyPools
            | some q =>
              let m' : Manager :=
                { m with
                  pools := pools_set m.pools url (incr_active_calls ps' q.id)
                  nextId := m.nextId + 1 }
              Except.ok (m', q.id)
          else Except.error RMError.noHealthyPools

/-- `_release_pool(url, pool)`.  The loop header reads `self._pools[url]` on
the `defaultdict`, inserting the key when absent; it then decrements the first
entry that is identical to `pool` (never any entry when `pool` is `None` or
not in the list). -/
def release_pool (m : Manager) (url : String) (conn : Option Nat) : Manager :=
  let pr := pools_getdd m.pools url
  match conn with
  | none => { m with pools := pr.2 }
  | some cid => { m with pools := pools_set pr.2 url (decr_active_calls pr.1 cid) }

/-- `connection.last_used = time.time()` inside `get_client` after a
successful `_get_pool`. -/
def stamp_last_used (m : Manager) (url : String) (cid : Nat) (now : Int) :
    Manager :=
  match pools_lookup m.pools url with
  | none => m
  | some ps => { m with pools := pools_set m.pools url (set_last_used ps cid now) }

/-- The acquisition phase of `get_client(url, timeout)`: `_get_pool`, then the
`last_used` stamp and the yield of the lease.  When `_get_pool` raises, the
`finally` block runs `_release_pool(url, None)` — with `connection` still
`None` — before the exception reaches the caller. -/
def get_client_acquire (m : Manager) (url : String) (growth_ready : Bool)
    (now : Int) : Except RMError Nat × Manager :=
  match get_pool m url growth_ready now with
  | Except.ok (m₁, cid) => (Except.ok cid, stamp_last_used m₁ url cid now)
  | Except.error e => (Except.error e, release_pool m url none)

/-- The exit of the lease scope of `get_client` (normal or raising body):
the `finally` block runs `_release_pool(url, connection)`. -/
def get_client_release (m : Manager) (url : String) (cid : Nat) : Manager :=
  release_pool m url (some cid)

/-- The scan of one URL's elastic suffix in `_periodic_cleanup`: first
component is `active_pools` (kept, in order), second the closed-and-dropped
entries. -/
def cleanup_scan (max_idle now : Int) : PoolList → PoolList × PoolList
  | [] => ([], [])
  | p :: ps =>
    let pr := cleanup_scan max_idle now ps
    if p.active_calls = 0 ∧ now - p.last_used > max_idle then (pr.1, p :: pr.2)
    else (p :: pr.1, pr.2)

/-- The rewrite `pools[:floor] + active_pools` of `_periodic_cleanup` for one
URL. -/
def cleanup_url (floor : Nat) (max_idle now : Int) (ps : PoolList) : PoolList :=
  ps.take floor ++ (cleanup_scan max_idle now (ps.drop floor)).1

/-- The entries of one URL that a cleanup tick closes and drops. -/
def cleanup_closed (floor : Nat) (max_idle now : Int) (ps : PoolList) : PoolList :=
  (cleanup_scan max_idle now (ps.drop floor)).2

/-- One tick of `_periodic_cleanup` over every URL of the mapping. -/
def periodic_cleanup_tick (m : Manager) (now : Int) : Manager :=
  { m with pools := m.pools.map (fun kv =>
      (kv.1, cleanup_url m.connection_pools_per_node_at_start m.max_idle_time now kv.2)) }

/-- The replacement construction of `_recover_unhealthy_pools`:
`RedisConnection(node_redis_url, self.max_connection_size)` — every other
parameter is left at its declaration default (`pool_args=None`,
`use_cluster=DEFAULT_VALUES["use_redis_cluster"]` written `default_uc` here,
`startup_nodes=None`). -/
def recovery_replacement (m : Manager) (url : String) (default_uc : Bool)
    (nid : Nat) : Except RMError RedisConnection :=
  RedisConnection.init nid url m.max_connection_size none default_uc none

/-- The inner loop of `_recover_unhealthy_pools` over one URL's entries.
`healthOf` gives each entry's `health_check` ping outcome, `readyOf` whether a
replacement's `wait_for_ready(timeout_sec=5, step_sec=1)` succeeds.  A
successful readiness leads to `pool.pool = new_pool.pool`, which reads the
attribute `pool` of the fresh `RedisConnection` — an attribute its constructor
never sets — so the in-place health updates made so far survive and the
`AttributeError` aborts the traversal. -/
def recover_entries (msize : Int) (d : Bool) (url : String)
    (healthOf readyOf : Nat → Bool) :
    PoolList → Nat → PoolList × Nat × Option RMError
  | [], nid => ([], nid, none)
  | p :: ps, nid =>
    let p₁ := { p with health_status := healthOf p.id }
    if p₁.health_status then
      let pr := recover_entries msize d url healthOf readyOf ps nid
      (p₁ :: pr.1, pr.2)
    else
      match RedisConnection.init nid url msize none d none with
      | Except.error e => (p₁ :: ps, nid + 1, some e)
      | Except.ok np =>
        if readyOf np.id then
          match np.pool_attr with
          | none => (p₁ :: ps, nid + 1, some RMError.attributeError)
          | some h =>
            let p₂ := { p₁ with pool_attr := some h, health_status := true }
            let pr := recover_entries msize d url healthOf readyOf ps (nid + 1)
            (p₂ :: pr.1, pr.2)
        else
          let pr := recover_entries msize d url healthOf readyOf ps (nid + 1)
          (p₁ :: pr.1, pr.2)

/-- The outer loop of `_recover_unhealthy_pools` over the URL mapping; an
exception escaping one URL's traversal leaves the later URLs untouched. -/
def recover_pools (msize : Int) (d : Bool) (healthOf readyOf : Nat → Bool) :
    Pools → Nat → Pools × Nat × Option RMError
  | [], nid => ([], nid, none)
  | (u, ps) :: rest, nid =>
    let pr := recover_entries msize d u healthOf readyOf ps nid
    match pr.2.2 with
    | some e => ((u, pr.1) :: rest, pr.2.1, some e)
    | none =>
      let pr' := recover_pools msize d healthOf readyOf rest pr.2.1
      ((u, pr.1) :: pr'.1, pr'.2)

/-- One recovery tick (`_recover_unhealthy_pools`), returning the state after
the traversal together with the exception, if any, that escaped it (to be
swallowed by `_periodic_health_check`). -/
def recover_unhealthy_pools (m : Manager) (d : Bool)
    (healthOf readyOf : Nat → Bool) : Manager × Option RMError :=
  let pr := recover_pools m.max_connection_size d healthOf readyOf m.pools m.nextId
  ({ m with pools := pr.1, nextId := pr.2.1 }, pr.2.2)

/-- `close_node_pools(url)`: close every entry of the URL and delete the key;
a no-op on an unknown URL. -/
def close_node_pools (m : Manager) (url : String) : Manager :=
  match pools_lookup m.pools url with
  | none => m
  | some _ => { m with pools := m.pools.filter (fun kv => decide (kv.1 ≠ url)) }

/-- `close_all_pools()`: close every entry and clear the mapping. -/
def close_all_pools (m : Manager) : Manager :=
  { m with pools := [] }

/-- The first entry of a list with the given identity. -/
def find_by_id : PoolList → Nat → Option RedisConnection
  | [], _ => none
  | p :: ps, cid => if p.id = cid then some p else find_by_id ps cid

/-- The `active_calls` counter of the entry with identity `cid` in `_pools[u]`
(`none` when the URL or the identity is absent): the observable that lease
accounting is about. -/
def activeCallsOf (m : Manager) (u : String) (cid : Nat) : Option Int :=
  (pools_lookup m.pools u).bind
    (fun ps => (find_by_id ps cid).map RedisConnection.active_calls)

theorem pools_lookup_set_self (P : Pools) (u : String) (l : PoolList) :
    pools_lookup (pools_set P u l) u = some l := by
  induction P with
  | nil => simp [pools_set, pools_lookup]
  | cons kv rest ih =>
    obtain ⟨k, v⟩ := kv
    by_cases h : k = u
    · simp [pools_set, pools_lookup, h]
    · simp [pools_set, pools_lookup, h, ih]

theorem pools_lookup_set_ne (P : Pools) (u v : String) (l : PoolList)
    (h : v ≠ u) : pools_lookup (pools_set P u l) v = pools_lookup P v := by
  induction P with
  | nil => simp [pools_set, pools_lookup, Ne.symm h]
  | cons kv rest ih =>
    obtain ⟨k, v₀⟩ := kv
    by_cases hk : k = u
    · subst hk
      simp [pools_set, pools_lookup, Ne.symm h]
    · simp [pools_set, pools_lookup, hk, ih]

theorem pools_set_set (P : Pools) (u : String) (a b : PoolList) :
    pools_set (pools_set P u a) u b = pools_set P u b := by
  induction P with
  | nil => simp [pools_set]
  | cons kv rest ih =>
    obtain ⟨k, v⟩ := kv
    by_cases h : k = u
    · simp [pools_set, h]
    · simp [pools_set, h, ih]

theorem pools_lookup_map (P : Pools) (f : PoolList → PoolList) (u : String) :
    pools_lookup (P.map (fun kv => (kv.1, f kv.2))) u
      = (pools_lookup P u).map f := by
  induction P with
  | nil => simp [pools_lookup]
  | cons kv rest ih =>
    obtain ⟨k, v⟩ := kv
    by_cases h : k = u
    · simp [pools_lookup, h]
    · simp [pools_lookup, h, ih]

theorem pools_lookup_append_key (P : Pools) (u v : String) (l : PoolList)
    (h : pools_lookup P u = none) :
    pools_lookup (P ++ [(u, l)]) v
      = if v = u then some l else pools_lookup P v := by
  induction P with
  | nil =>
    by_cases hv : v = u
    · simp [pools_lookup, hv]
    · simp [pools_lookup, hv, Ne.symm hv]
  | cons kv rest ih =>
    obtain ⟨k, v₀⟩ := kv
    by_cases hk : k = u
    · simp [pools_lookup, hk] at h
    · simp only [pools_lookup, hk, if_false, if_neg hk] at h
      by_cases hkv : k = v
      · subst hkv
        simp [List.cons_append, pools_lookup, hk]
      · simp only [List.cons_append, pools_lookup, if_neg hkv]
        exact ih h

/-- The identity-and-counter view of a list of entries. -/
def calls_view (l : PoolList) : List (Nat × Int) :=
  l.map (fun p => (p.id, p.active_calls))

theorem find_calls_congr (l₁ : PoolList) :
    ∀ l₂ : PoolList, calls_view l₁ = calls_view l₂ → ∀ c' : Nat,
      (find_by_id l₁ c').map RedisConnection.active_calls
        = (find_by_id l₂ c').map RedisConnection.active_calls := by
  induction l₁ with
  | nil =>
    intro l₂ h c'
    cases l₂ with
    | nil => rfl
    | cons q qs => simp [calls_view] at h
  | cons p ps ih =>
    intro l₂ h c'
    cases l₂ with
    | nil => simp [calls_view] at h
    | cons q qs =>
      simp only [calls_view, List.map_cons, List.cons.injEq, Prod.mk.injEq] at h
      obtain ⟨⟨hid, hcalls⟩, htail⟩ := h
      by_cases hc : p.id = c'
      · rw [show find_by_id (p :: ps) c' = some p from if_pos hc,
          show find_by_id (q :: qs) c' = some q from if_pos (hid ▸ hc)]
        simp [hcalls]
      · rw [show find_by_id (p :: ps) c' = find_by_id ps c' from if_neg hc,
          show find_by_id (q :: qs) c' = find_by_id qs c' from if_neg (hid ▸ hc)]
        exact ih qs htail c'

theorem calls_view_set_last_used (l : PoolList) (c : Nat) (n : Int) :
    calls_view (set_last_used l c n) = calls_view l := by
  induction l with
  | nil => rfl
  | cons p ps ih =>
    by_cases h : p.id = c
    · simp only [set_last_used, if_pos h, calls_view, List.map_cons]
    · simp only [set_last_used, if_neg h, calls_view, List.map_cons,
        List.cons.injEq, true_and]
      exact ih

theorem find_calls_set_last_used (l : PoolList) (c : Nat) (n : Int)
    (c' : Nat) :
    (find_by_id (set_last_used l c n) c').map RedisConnection.active_calls
      = (find_by_id l c').map RedisConnection.active_calls :=
  find_calls_congr _ _ (calls_view_set_last_used l c n) c'

theorem decr_set_last_used_incr (l : PoolList) (c : Nat) (n : Int) :
    decr_active_calls (set_last_used (incr_active_calls l c) c n) c
      = set_last_used l c n := by
  induction l with
  | nil => simp [incr_active_calls, set_last_used, decr_active_calls]
  | cons p ps ih =>
    by_cases h : p.id = c
    · simp [incr_active_calls, set_last_used, decr_active_calls, h]
    · simp [incr_active_calls, set_last_used, decr_active_calls, h, ih]

theorem incr_append_fresh (l : PoolList) (c : RedisConnection)
    (h : ∀ r ∈ l, r.id ≠ c.id) :
    incr_active_calls (l ++ [c]) c.id
      = l ++ [{ c with active_calls := c.active_calls + 1 }] := by
  induction l with
  | nil => simp [incr_active_calls]
  | cons p ps ih =>
    have hp : p.id ≠ c.id := h p (by simp)
    simp only [List.cons_append, incr_active_calls, if_neg hp]
    rw [show ps.append [c] = ps ++ [c] from rfl, ih (fun r hr => h r (by simp [hr]))]

theorem find_append_fresh (l : PoolList) (c : RedisConnection) (cid : Nat)
    (h : ∀ r ∈ l, r.id ≠ cid) :
    find_by_id (l ++ [c]) cid = if c.id = cid then some c else none := by
  induction l with
  | nil => simp [find_by_id]
  | cons p ps ih =>
    have hp : p.id ≠ cid := h p (by simp)
    simp only [List.cons_append, find_by_id, if_neg hp]
    exact ih (fun r hr => h r (by simp [hr]))

theorem find_append_other (l : PoolList) (c : RedisConnection) (cid : Nat)
    (h : c.id ≠ cid) :
    find_by_id (l ++ [c]) cid = find_by_id l cid := by
  induction l with
  | nil => simp [find_by_id, h]
  | cons p ps ih =>
    by_cases hp : p.id = cid
    · simp [find_by_id, hp]
    · simp only [List.cons_append, find_by_id, if_neg hp]
      exact ih

theorem least_active_aux_some (ps : PoolList) :
    ∀ x : RedisConnection × Int, ∃ y, least_active_aux (some x) ps = some y := by
  induction ps with
  | nil => intro x; exact ⟨x, rfl⟩
  | cons p ps ih =>
    intro x
    obtain ⟨b, mn⟩ := x
    simp only [least_active_aux, least_active_step]
    by_cases h : p.health_status = true ∧ p.active_calls < mn
    · rw [if_pos h]; exact ih _
    · rw [if_neg h]; exact ih _

theorem get_least_active_pool_none_iff (ps : PoolList) :
    get_least_active_pool ps = none ↔ ∀ p ∈ ps, p.health_status = false := by
  unfold get_least_active_pool
  induction ps with
  | nil => simp [least_active_aux]
  | cons p ps ih =>
    simp only [least_active_aux, least_active_step]
    cases hb : p.health_status with
    | true =>
      rw [if_pos rfl]
      constructor
      · intro hcontra
        obtain ⟨y, hy⟩ := least_active_aux_some ps (p, p.active_calls)
        rw [hy] at hcontra
        cases hcontra
      · intro hall
        have := hall p (by simp)
        rw [hb] at this
        cases this
    | false =>
      rw [if_neg (by simp [hb])]
      rw [ih]
      constructor
      · intro hall q hq
        rcases List.mem_cons.mp hq with hq' | hq'
        · rw [hq']; exact hb
        · exact hall q hq'
      · intro hall q hq
        exact hall q (List.mem_cons_of_mem p hq)

theorem least_active_aux_spec (ps : PoolList) :
    ∀ b₀ : RedisConnection, ∀ mn₀ : Int, ∀ b : RedisConnection, ∀ mn : Int,
      least_active_aux (some (b₀, mn₀)) ps = some (b, mn) →
      mn ≤ mn₀ ∧
      ((b = b₀ ∧ mn = mn₀ ∧ ∀ q ∈ ps, q.health_status = true → mn₀ ≤ q.active_calls)
       ∨ (b.health_status = true ∧ mn = b.active_calls ∧ mn < mn₀ ∧
          ∃ i : Nat, ps.get? i = some b ∧
            (∀ q ∈ ps, q.health_status = true → mn ≤ q.active_calls) ∧
            (∀ j : Nat, ∀ q : RedisConnection, j < i → ps.get? j = some q →
              q.health_status = true → mn < q.active_calls))) := by
  induction ps with
  | nil =>
    intro b₀ mn₀ b mn h
    simp only [least_active_aux] at h
    obtain ⟨hb, hmn⟩ : b₀ = b ∧ mn₀ = mn := by
      constructor <;> [exact congrArg Prod.fst (Option.some.inj h);
        exact congrArg Prod.snd (Option.some.inj h)]
    subst hb; subst hmn
    exact ⟨le_refl _, Or.inl ⟨rfl, rfl, by simp⟩⟩
  | cons p ps ih =>
    intro b₀ mn₀ b mn h
    simp only [least_active_aux, least_active_step] at h
    by_cases hc : p.health_status = true ∧ p.active_calls < mn₀
    · rw [if_pos hc] at h
      obtain ⟨hle, hcase⟩ := ih p p.active_calls b mn h
      refine ⟨le_trans hle (le_of_lt hc.2), Or.inr ?_⟩
      rcases hcase with ⟨hb, hmn, hge⟩ | ⟨hh, hmn, hlt, i, hget, hmin, hstrict⟩
      · subst hb
        refine ⟨hc.1, hmn, hmn ▸ hc.2, 0, rfl, ?_, ?_⟩
        · intro q hq hqh
          rcases List.mem_cons.mp hq with hq' | hq'
          · rw [hq']; exact hmn.le
          · exact hmn ▸ hge q hq' hqh
        · intro j q hj _ _
          exact absurd hj (Nat.not_lt_zero j)
      · refine ⟨hh, hmn, lt_trans hlt hc.2, i + 1, hget, ?_, ?_⟩
        · intro q hq hqh
          rcases List.mem_cons.mp hq with hq' | hq'
          · rw [hq']; exact le_of_lt hlt
          · exact hmin q hq' hqh
        · intro j q hj hq hqh
          cases j with
          | zero =>
            have hqp : q = p := (Option.some.inj hq).symm
            rw [hqp]; exact hlt
          | succ j' =>
            exact hstrict j' q (Nat.lt_of_succ_lt_succ hj) hq hqh
    · rw [if_neg hc] at h
      obtain ⟨hle, hcase⟩ := ih b₀ mn₀ b mn h
      have hp_ge : p.health_status = true → mn₀ ≤ p.active_calls := by
        intro hph
        by_contra hcon
        exact hc ⟨hph, lt_of_not_ge hcon⟩
      refine ⟨hle, ?_⟩
      rcases hcase with ⟨hb, hmn, hge⟩ | ⟨hh, hmn, hlt, i, hget, hmin, hstrict⟩
      · refine Or.inl ⟨hb, hmn, ?_⟩
        intro q hq hqh
        rcases List.mem_cons.mp hq with hq' | hq'
        · rw [hq'] at hqh ⊢; exact hp_ge hqh
        · exact hge q hq' hqh
      · refine Or.inr ⟨hh, hmn, hlt, i + 1, hget, ?_, ?_⟩
        · intro q hq hqh
          rcases List.mem_cons.mp hq with hq' | hq'
          · rw [hq'] at hqh ⊢; exact le_of_lt (lt_of_lt_of_le hlt (hp_ge hqh))
          · exact hmin q hq' hqh
        · intro j q hj hq hqh
          cases j with
          | zero =>
            have hqp : q = p := (Option.some.inj hq).symm
            rw [hqp] at hqh ⊢
            exact lt_of_lt_of_le hlt (hp_ge hqh)
          | succ j' =>
            exact hstrict j' q (Nat.lt_of_succ_lt_succ hj) hq hqh

theorem get_least_active_pool_spec (ps : PoolList) (b : RedisConnection)
    (mn : Int) (h : get_least_active_pool ps = some (b, mn)) :
    b.health_status = true ∧ mn = b.active_calls ∧
    ∃ i : Nat, ps.get? i = some b ∧
      (∀ q ∈ ps, q.health_status = true → mn ≤ q.active_calls) ∧
      (∀ j : Nat, ∀ q : RedisConnection, j < i → ps.get? j = some q →
        q.health_status = true → mn < q.active_calls) := by
  induction ps with
  | nil => cases h
  | cons p ps ih =>
    unfold get_least_active_pool at h
    simp only [least_active_aux, least_active_step] at h
    cases hb : p.health_status with
    | true =>
      rw [hb, if_pos rfl] at h
      obtain ⟨_, hcase⟩ := least_active_aux_spec ps p p.active_calls b mn h
      rcases hcase with ⟨hbp, hmn, hge⟩ | ⟨hh, hmn, hlt, i, hget, hmin, hstrict⟩
      · subst hbp
        refine ⟨hb, hmn, 0, rfl, ?_, ?_⟩
        · intro q hq hqh
          rcases List.mem_cons.mp hq with hq' | hq'
          · rw [hq']; exact hmn.le
          · exact hmn ▸ hge q hq' hqh
        · intro j q hj _ _
          exact absurd hj (Nat.not_lt_zero j)
      · refine ⟨hh, hmn, i + 1, hget, ?_, ?_⟩
        · intro q hq hqh
          rcases List.mem_cons.mp hq with hq' | hq'
          · rw [hq']; exact le_of_lt hlt
          · exact hmin q hq' hqh
        · intro j q hj hq hqh
          cases j with
          | zero =>
            have hqp : q = p := (Option.some.inj hq).symm
            rw [hqp]; exact hlt
          | succ j' =>
            exact hstrict j' q (Nat.lt_of_succ_lt_succ hj) hq hqh
    | false =>
      rw [hb] at h
      rw [if_neg (by simp)] at h
      obtain ⟨hh, hmn, i, hget, hmin, hstrict⟩ := ih h
      refine ⟨hh, hmn, i + 1, hget, ?_, ?_⟩
      · intro q hq hqh
        rcases List.mem_cons.mp hq with hq' | hq'
        · rw [hq'] at hqh
          rw [hqh] at hb
          cases hb
        · exact hmin q hq' hqh
      · intro j q hj hq hqh
        cases j with
        | zero =>
          have hqp : q = p := (Option.some.inj hq).symm
          rw [hqp] at hqh
          rw [hqh] at hb
          cases hb
        | succ j' =>
          exact hstrict j' q (Nat.lt_of_succ_lt_succ hj) hq hqh

theorem init_ok_fields (id : Nat) (url : String) (size : Int)
    (pa : Option OptMap) (uc : Bool) (sn : Option (List ClusterNode))
    (c : RedisConnection)
    (h : RedisConnection.init id url size pa uc sn = Except.ok c) :
    c.id = id ∧ c.active_calls = 0 ∧ c.health_status = false ∧
      c.pool_attr = none := by
  unfold RedisConnection.init at h
  by_cases hbr : (uc && nodesTruthy sn) = true
  · rw [if_pos hbr] at h
    cases hm : merge_pool_args DEFAULT_CLUSTER_POOL_OPTIONS pa VALID_CLUSTER_ARGS with
    | error e => rw [hm] at h; cases h
    | ok merged =>
      rw [hm] at h
      have := Except.ok.inj h
      rw [← this]
      exact ⟨rfl, rfl, rfl, rfl⟩
  · rw [if_neg hbr] at h
    cases hm : merge_pool_args DEFAULT_POOL_OPTIONS pa VALID_POOL_ARGS with
    | error e => rw [hm] at h; cases h
    | ok merged =>
      rw [hm] at h
      have := Except.ok.inj h
      rw [← this]
      exact ⟨rfl, rfl, rfl, rfl⟩

theorem find_by_id_of_mem (ps : PoolList) (b : RedisConnection) (h : b ∈ ps) :
    ∃ y, find_by_id ps b.id = some y ∧ y ∈ ps := by
  induction ps with
  | nil => cases h
  | cons p ps ih =>
    by_cases hp : p.id = b.id
    · exact ⟨p, if_pos hp, by simp⟩
    · rcases List.mem_cons.mp h with hb | hb
      · exact absurd (congrArg RedisConnection.id hb.symm) hp
      · obtain ⟨y, hy, hmem⟩ := ih hb
        exact ⟨y, by rw [show find_by_id (p :: ps) b.id = find_by_id ps b.id from if_neg hp, hy],
          List.mem_cons_of_mem p hmem⟩

theorem find_by_id_none_fresh (ps : PoolList) (cid : Nat)
    (h : ∀ r ∈ ps, r.id ≠ cid) : find_by_id ps cid = none := by
  induction ps with
  | nil => rfl
  | cons p ps ih =>
    rw [show find_by_id (p :: ps) cid = find_by_id ps cid from if_neg (h p (by simp))]
    exact ih (fun r hr => h r (List.mem_cons_of_mem p hr))

theorem getLast?_append_one (l : PoolList) (c : RedisConnection) :
    (l ++ [c]).getLast? = some c := by
  induction l with
  | nil => rfl
  | cons p ps ih =>
    rw [List.cons_append, List.getLast?_cons, ih]
    simp

theorem mem_of_get?_eq (ps : PoolList) (i : Nat) (b : RedisConnection)
    (h : ps.get? i = some b) : b ∈ ps := by
  induction ps generalizing i with
  | nil => cases h
  | cons p ps ih =>
    cases i with
    | zero => rw [(Option.some.inj h).symm]; simp
    | succ j => exact List.mem_cons_of_mem p (ih j h)

/-- Case analysis of a successful `_get_pool`: either the least-active healthy
entry was unsaturated and got the bump, or a fresh entry was appended and got
the bump. -/
theorem get_pool_ok_cases (m : Manager) (url : String) (g : Bool) (now : Int)
    (m₁ : Manager) (cid : Nat)
    (h : get_pool m url g now = Except.ok (m₁, cid)) :
    ∃ ps, pools_lookup m.pools url = some ps ∧
      ((∃ b : RedisConnection, ∃ mn : Int,
          get_least_active_pool ps = some (b, mn) ∧ mn < m.max_connection_size ∧
          cid = b.id ∧
          m₁ = { m with pools := pools_set m.pools url (incr_active_calls ps b.id) })
       ∨ (∃ b : RedisConnection, ∃ mn : Int, ∃ c₀ : RedisConnection,
          get_least_active_pool ps = some (b, mn) ∧
          ¬ mn < m.max_connection_size ∧
          RedisConnection.init m.nextId url m.max_connection_size m.pool_args
              m.use_cluster m.startup_nodes = Except.ok c₀ ∧
          g = true ∧ cid = (mark_ready now c₀).id ∧
          m₁ = { m with
            pools := pools_set m.pools url
              (incr_active_calls (ps ++ [mark_ready now c₀]) (mark_ready now c₀).id)
            nextId := m.nextId + 1 })) := by
  unfold get_pool at h
  split at h
  · cases h
  · rename_i ps hlook
    refine ⟨ps, hlook, ?_⟩
    split at h
    · cases h
    · rename_i b mn hglap
      split at h
      · rename_i hlt
        obtain ⟨hm, hc⟩ : _ ∧ _ :=
          ⟨congrArg Prod.fst (Except.ok.inj h), congrArg Prod.snd (Except.ok.inj h)⟩
        exact Or.inl ⟨b, mn, hglap, hlt, hc.symm, hm.symm⟩
      · rename_i hlt
        split at h
        · cases h
        · rename_i c₀ hinit
          split at h
          · rename_i hg
            simp only [getLast?_append_one] at h
            obtain ⟨hm, hc⟩ : _ ∧ _ :=
              ⟨congrArg Prod.fst (Except.ok.inj h), congrArg Prod.snd (Except.ok.inj h)⟩
            exact Or.inr ⟨b, mn, c₀, hglap, hlt, hinit, hg, hc.symm, hm.symm⟩
          · cases h

theorem except_map_error_iff {α β : Type} (f : α → β) (e : Except RMError α)
    (x : RMError) : e.map f = Except.error x ↔ e = Except.error x := by
  cases e <;> simp [Except.map]

theorem merge_error_iff (d : OptMap) (custom : Option OptMap)
    (vk : List String) :
    merge_pool_args d custom vk = Except.error RMError.invalidPoolArguments
      ↔ ∃ kv ∈ custom.getD [], vk.contains kv.1 = false := by
  cases custom with
  | none => simp [merge_pool_args]
  | some c =>
    by_cases hc : c = []
    · subst hc; simp [merge_pool_args]
    · by_cases hall : c.all (fun kv => vk.contains kv.1) = true
      · rw [show merge_pool_args d (some c) vk = Except.ok (dictUpdate d c) by
          simp only [merge_pool_args]; rw [if_neg hc, if_pos hall]]
        simp only [Option.getD]
        constructor
        · intro hcontra; cases hcontra
        · intro ⟨kv, hmem, hfalse⟩
          rw [List.all_eq_true] at hall
          rw [hall kv hmem] at hfalse
          cases hfalse
      · rw [show merge_pool_args d (some c) vk
            = Except.error RMError.invalidPoolArguments by
          simp only [merge_pool_args]; rw [if_neg hc, if_neg hall]]
        simp only [Option.getD, true_iff]
        rw [List.all_eq_true] at hall
        push_neg at hall
        obtain ⟨kv, hmem, hfalse⟩ := hall
        exact ⟨kv, hmem, Bool.not_eq_true _ ▸ hfalse⟩

/-- A fixed entry shape used by concrete witness states: object identity `i`,
health flag `h`, counter `ac`. -/
def wit_conn (i : Nat) (h : Bool) (ac : Int) : RedisConnection :=
  { id := i, redis_url := "redis://a", use_cluster := false,
    startup_nodes := none, health_status := h, active_calls := ac,
    connection_duration := 0, last_used := 0,
    redis_client := ClientHandle.single "redis://a" 50 DEFAULT_POOL_OPTIONS,
    pool_attr := none }

def wit4_ps : PoolList :=
  [wit_conn 0 false 0, wit_conn 1 true 5, wit_conn 2 true 3, wit_conn 3 true 3]

def wit4_m : Manager :=
  { Manager.mkInit 1 50 none false none 180 with
    pools := [("redis://a", wit4_ps)], nextId := 4 }

/-- C4: whenever `acquire` succeeds without growth it returns a lease on the
entry that, among the entries of `pools[url]` with `health_status` true, has
minimum `active_calls`, ties broken by the earliest list position (first
conjunct characterises `_get_least_active_pool`, third ties it to the
non-growth success of `_get_pool`); and when no entry is healthy the selection
is `none` (second conjunct) and `acquire` fails with `NoHealthyPools` without
ever selecting an unhealthy entry (fourth conjunct). -/
theorem claim_C4_acquire_selects_least_active :
    (∀ ps : PoolList, ∀ b : RedisConnection, ∀ mn : Int,
      get_least_active_pool ps = some (b, mn) →
      b.health_status = true ∧ mn = b.active_calls ∧
      ∃ i : Nat, ps.get? i = some b ∧
        (∀ q ∈ ps, q.health_status = true → b.active_calls ≤ q.active_calls) ∧
        (∀ j : Nat, ∀ q : RedisConnection, j < i → ps.get? j = some q →
          q.health_status = true → b.active_calls < q.active_calls)) ∧
    (∀ ps : PoolList,
      get_least_active_pool ps = none ↔ ∀ p ∈ ps, p.health_status = false) ∧
    (∀ m : Manager, ∀ url : String, ∀ g : Bool, ∀ now : Int,
      ∀ ps : PoolList, ∀ b : RedisConnection, ∀ mn : Int,
      pools_lookup m.pools url = some ps →
      get_least_active_pool ps = some (b, mn) →
      mn < m.max_connection_size →
      get_pool m url g now = Except.ok
        ({ m with pools := pools_set m.pools url (incr_active_calls ps b.id) },
         b.id)) ∧
    (∀ m : Manager, ∀ url : String, ∀ g : Bool, ∀ now : Int, ∀ ps : PoolList,
      pools_lookup m.pools url = some ps →
      (∀ p ∈ ps, p.health_status = false) →
      get_pool m url g now = Except.error RMError.noHealthyPools) := by
  refine ⟨?_, ?_, ?_, ?_⟩
  · intro ps b mn h
    obtain ⟨hh, hmn, i, hget, hmin, hstrict⟩ := get_least_active_pool_spec ps b mn h
    subst hmn
    exact ⟨hh, rfl, i, hget, hmin, hstrict⟩
  · exact get_least_active_pool_none_iff
  · intro m url g now ps b mn hlook hglap hlt
    simp [get_pool, hlook, hglap, if_pos hlt]
  · intro m url g now ps hlook hall
    have hnone : get_least_active_pool ps = none :=
      (get_least_active_pool_none_iff ps).mpr hall
    simp [get_pool, hlook, hnone]

/-- Witness for C4: on a four-entry list (one unhealthy, healthy counters
5, 3, 3) the acquire path bumps and returns the entry with identity 2 — the
first healthy entry with the minimal counter. -/
theorem claim_C4_witness :
    get_pool wit4_m "redis://a" false 0 = Except.ok
      ({ wit4_m with
         pools := pools_set wit4_m.pools "redis://a" (incr_active_calls wit4_ps 2) },
       2) :=
  claim_C4_acquire_selects_least_active.2.2.1 wit4_m "redis://a" false 0 wit4_ps
    (wit_conn 2 true 3) 3 (by rfl) (by rfl) (by decide)

/-- C8 counterexample: in cluster mode (`use_cluster = true`) but with no
startup nodes, construction with the cluster-only key `read_from_replicas` —
a key of the cluster allow-list — fails with `InvalidPoolArguments`, because
the branch on `use_cluster and startup_nodes` validated against the
single-node allow-list; so the cluster allow-list is NOT validated for every
construction in cluster mode, refuting the claim as stated. -/
theorem claim_C8_counterexample :
    RedisConnection.init 0 "redis://a" 50
        (some [("read_from_replicas", OptVal.b true)]) true none
      = Except.error RMError.invalidPoolArguments ∧
    "read_from_replicas" ∈ VALID_CLUSTER_ARGS := by
  constructor
  · rfl
  · simp [VALID_CLUSTER_ARGS]

/-- C8 (amended): construction fails with `InvalidPoolArguments` iff the
caller-supplied map has a key outside the allow-list of the branch actually
taken — the cluster allow-list exactly when `use_cluster` is set AND
`startup_nodes` is truthy, the single-node allow-list otherwise — and the
cluster allow-list is exactly the single-node allow-list plus the five
cluster-only keys. -/
theorem claim_C8_amended :
    (∀ (id : Nat) (url : String) (size : Int) (custom : Option OptMap)
        (uc : Bool) (sn : Option (List ClusterNode)),
      RedisConnection.init id url size custom uc sn
          = Except.error RMError.invalidPoolArguments
        ↔ ∃ kv ∈ custom.getD [],
            ((if uc && nodesTruthy sn then VALID_CLUSTER_ARGS
              else VALID_POOL_ARGS).contains kv.1) = false) ∧
    (∀ k : String, k ∈ VALID_CLUSTER_ARGS ↔
      (k ∈ VALID_POOL_ARGS ∨
        k ∈ ["require_full_coverage", "read_from_replicas", "reinitialize_steps",
             "cluster_error_retry_attempts", "connection_error_retry_attempts"])) := by
  constructor
  · intro id url size custom uc sn
    by_cases hbr : (uc && nodesTruthy sn) = true
    · rw [if_pos hbr]
      unfold RedisConnection.init
      rw [if_pos hbr, except_map_error_iff, merge_error_iff]
    · rw [if_neg hbr]
      unfold RedisConnection.init
      rw [if_neg hbr, except_map_error_iff, merge_error_iff]
  · intro k
    constructor
    · intro hk
      rcases List.mem_append.mp hk with hk' | hk'
      · exact Or.inr hk'
      · exact Or.inl hk'
    · intro hk
      rcases hk with hk' | hk'
      · exact List.mem_append.mpr (Or.inr hk')
      · exact List.mem_append.mpr (Or.inl hk')

/-- C10: the replacement connection the recovery loop builds is constructed
from only the URL and `max_connection_size`; for every manager configuration
(whatever its `use_cluster`, `startup_nodes` and `pool_args`) the resulting
client is a single-node handle over the default single-node option map. -/
theorem claim_C10_recovery_replacement_defaults :
    ∀ (m : Manager) (url : String) (d : Bool) (nid : Nat),
      (recovery_replacement m url d nid).map
          (fun c => (c.redis_client, c.use_cluster, c.startup_nodes, c.pool_attr))
        = Except.ok
            (ClientHandle.single url m.max_connection_size DEFAULT_POOL_OPTIONS,
             d, none, none) := by
  intro m url d nid
  simp [recovery_replacement, RedisConnection.init, nodesTruthy,
    merge_pool_args, Except.map]

/-- C5: when some entry of `pools[url]` is healthy and every healthy entry's
`active_calls` equals `max_connection_size`, a successful acquire appends
exactly one fresh entry at the end of the list and returns a lease on that
entry with its counter incremented to 1, leaving every other URL's list
untouched. -/
theorem claim_C5_saturated_growth (m : Manager) (url : String) (now : Int)
    (ps : PoolList) (b : RedisConnection) (mn : Int)
    (hlook : pools_lookup m.pools url = some ps)
    (hglap : get_least_active_pool ps = some (b, mn))
    (hsat : ∀ q ∈ ps, q.health_status = true →
      q.active_calls = m.max_connection_size)
    (hfresh : ∀ r ∈ ps, r.id ≠ m.nextId)
    (m₁ : Manager) (cid : Nat)
    (hok : get_pool m url true now = Except.ok (m₁, cid)) :
    ∃ c : RedisConnection,
      pools_lookup m₁.pools url = some (ps ++ [c]) ∧
      cid = c.id ∧ c.id = m.nextId ∧ c.active_calls = 1 ∧
      c.health_status = true ∧
      (∀ u : String, u ≠ url →
        pools_lookup m₁.pools u = pools_lookup m.pools u) := by
  obtain ⟨hh, hmn, i, hget, hmin, hstrict⟩ := get_least_active_pool_spec ps b mn hglap
  have hbmem : b ∈ ps := mem_of_get?_eq ps i b hget
  have hmax : mn = m.max_connection_size := by
    rw [hmn]; exact hsat b hbmem hh
  obtain ⟨ps', hlook', hcase⟩ := get_pool_ok_cases m url true now m₁ cid hok
  have hps : ps' = ps := Option.some.inj (hlook'.symm.trans hlook)
  rw [hps] at hcase
  rcases hcase with ⟨b', mn', hglap', hlt', _, _⟩ |
      ⟨b', mn', c₀, hglap', hlt', hinit, _, hcid, hm₁⟩
  · exfalso
    have : mn' = mn := congrArg Prod.snd (Option.some.inj (hglap'.symm.trans hglap))
    rw [this, hmax] at hlt'
    exact lt_irrefl _ hlt'
  · obtain ⟨hid₀, hcalls₀, _, _⟩ := init_ok_fields m.nextId url m.max_connection_size
      m.pool_args m.use_cluster m.startup_nodes c₀ hinit
    have hqid : (mark_ready now c₀).id = m.nextId := hid₀
    have hfresh' : ∀ r ∈ ps, r.id ≠ (mark_ready now c₀).id := by
      intro r hr; rw [hqid]; exact hfresh r hr
    refine ⟨{ mark_ready now c₀ with
      active_calls := (mark_ready now c₀).active_calls + 1 }, ?_, ?_, ?_, ?_, ?_, ?_⟩
    · rw [hm₁]
      show pools_lookup (pools_set m.pools url
        (incr_active_calls (ps ++ [mark_ready now c₀]) (mark_ready now c₀).id)) url = _
      rw [pools_lookup_set_self, incr_append_fresh ps (mark_ready now c₀) hfresh']
    · exact hcid
    · exact hqid
    · show (mark_ready now c₀).active_calls + 1 = 1
      show c₀.active_calls + 1 = 1
      rw [hcalls₀]; norm_num
    · rfl
    · intro u hu
      rw [hm₁]
      exact pools_lookup_set_ne m.pools url u _ hu

def wit5_ps : PoolList := [wit_conn 0 true 1]

def wit5_m : Manager :=
  { Manager.mkInit 1 1 none false none 180 with
    pools := [("redis://a", wit5_ps)], nextId := 1 }

def wit5_res : Except RMError (Manager × Nat) := get_pool wit5_m "redis://a" true 7

def wit5_m₁ : Manager := (wit5_res.toOption.getD (wit5_m, 0)).1

def wit5_cid : Nat := (wit5_res.toOption.getD (wit5_m, 0)).2

/-- Witness for C5: `max_connection_size = 1`, floor entry holding 1 lease
(saturated); the next acquire grows the list from one entry to two and leases
the new entry. -/
theorem claim_C5_witness :
    ∃ c : RedisConnection,
      pools_lookup wit5_m₁.pools "redis://a" = some (wit5_ps ++ [c]) ∧
      wit5_cid = c.id ∧ c.id = wit5_m.nextId ∧ c.active_calls = 1 ∧
      c.health_status = true ∧
      (∀ u : String, u ≠ "redis://a" →
        pools_lookup wit5_m₁.pools u = pools_lookup wit5_m.pools u) :=
  claim_C5_saturated_growth wit5_m "redis://a" 7 wit5_ps (wit_conn 0 true 1) 1
    (by rfl) (by rfl) (by decide) (by decide) wit5_m₁ wit5_cid (by rfl)

theorem decr_noop_of_find_none (ps : PoolList) (cid : Nat)
    (h : find_by_id ps cid = none) : decr_active_calls ps cid = ps := by
  induction ps with
  | nil => rfl
  | cons p l ih =>
    by_cases hp : p.id = cid
    · rw [show find_by_id (p :: l) cid = some p from if_pos hp] at h
      cases h
    · rw [show find_by_id (p :: l) cid = find_by_id l cid from if_neg hp] at h
      simp only [decr_active_calls, if_neg hp]
      rw [ih h]

/-- After a successful `_get_pool` that produced the list
`incr_active_calls Y cid` for its URL, the `last_used` stamp of `get_client`
followed by the scoped release rewrites that URL's list to
`set_last_used Y cid now`: the counter bump is undone exactly. -/
theorem release_after_stamp_pools (m₁ : Manager) (url : String) (cid : Nat)
    (now : Int) (Y : PoolList) (P : Pools)
    (h : m₁.pools = pools_set P url (incr_active_calls Y cid)) :
    (get_client_release (stamp_last_used m₁ url cid now) url cid).pools
      = pools_set P url (set_last_used Y cid now) := by
  unfold stamp_last_used
  rw [h, pools_lookup_set_self]
  simp only [get_client_release, release_pool, pools_getdd, pools_set_set,
    pools_lookup_set_self]
  rw [decr_set_last_used_incr]

theorem claim_C7_helper_counters (m₃ : Manager) (m : Manager) (url : String)
    (cid : Nat) (now : Int) (Y : PoolList)
    (h : m₃.pools = pools_set m.pools url (set_last_used Y cid now)) :
    (∀ c' : Nat, activeCallsOf m₃ url c'
        = (find_by_id Y c').map RedisConnection.active_calls) ∧
    (∀ (u : String) (c' : Nat), u ≠ url →
      activeCallsOf m₃ u c' = activeCallsOf m u c') := by
  constructor
  · intro c'
    unfold activeCallsOf
    rw [h, pools_lookup_set_self]
    exact find_calls_set_last_used Y cid now c'
  · intro u c' hu
    unfold activeCallsOf
    rw [h, pools_lookup_set_ne m.pools url u _ hu]

/-- C7: for every successful acquire, after the lease's scope exits (the
`finally` release) the leased entry's `active_calls` is back at its value
before the acquire (0, its initial value, when the acquire grew a fresh
entry), every other counter of every URL is untouched, and the release is a
counter no-op when the entry is no longer present in `pools[url]`; the release
itself is a total function of the state (it raises nothing). -/
theorem claim_C7_lease_release_roundtrip :
    (∀ (m : Manager) (url : String) (g : Bool) (now : Int) (ps : PoolList)
        (m₁ : Manager) (cid : Nat),
      pools_lookup m.pools url = some ps →
      (∀ r ∈ ps, r.id ≠ m.nextId) →
      get_pool m url g now = Except.ok (m₁, cid) →
      activeCallsOf (get_client_release (stamp_last_used m₁ url cid now) url cid)
          url cid
        = some ((activeCallsOf m url cid).getD 0) ∧
      (∀ (u : String) (c' : Nat), u ≠ url ∨ c' ≠ cid →
        activeCallsOf (get_client_release (stamp_last_used m₁ url cid now) url cid)
            u c'
          = activeCallsOf m u c')) ∧
    (∀ (m : Manager) (url : String) (cid : Nat),
      (∀ ps, pools_lookup m.pools url = some ps → find_by_id ps cid = none) →
      ∀ (u : String) (c' : Nat),
        activeCallsOf (release_pool m url (some cid)) u c' = activeCallsOf m u c') := by
  constructor
  · intro m url g now ps m₁ cid hlook hfresh hok
    obtain ⟨ps', hlook', hcase⟩ := get_pool_ok_cases m url g now m₁ cid hok
    have hps : ps' = ps := Option.some.inj (hlook'.symm.trans hlook)
    rw [hps] at hcase
    rcases hcase with ⟨b, mn, hglap, _, hcid, hm₁⟩ |
        ⟨b, mn, c₀, hglap, _, hinit, _, hcid, hm₁⟩
    · -- no-growth branch: the leased entry is the least-active b, cid = b.id
      have hpools : m₁.pools = pools_set m.pools url (incr_active_calls ps cid) := by
        rw [hm₁, hcid]
      have h3 := release_after_stamp_pools m₁ url cid now ps m.pools hpools
      obtain ⟨hurl, hother⟩ :=
        claim_C7_helper_counters _ m url cid now ps h3
      obtain ⟨_, _, i, hget, _, _⟩ := get_least_active_pool_spec ps b mn hglap
      obtain ⟨y, hy, _⟩ := find_by_id_of_mem ps b (mem_of_get?_eq ps i b hget)
      have hmv : activeCallsOf m url cid = some y.active_calls := by
        unfold activeCallsOf
        rw [hlook]
        show (find_by_id ps cid).map RedisConnection.active_calls = _
        rw [hcid, hy]
        rfl
      constructor
      · rw [hurl cid, hmv, hcid, hy]
        rfl
      · intro u c' hu
        rcases hu with hu | hc'
        · exact hother u c' hu
        · by_cases hu' : u = url
          · subst hu'
            rw [hurl c']
            unfold activeCallsOf
            rw [hlook]
            rfl
          · exact hother u c' hu'
    · -- growth branch: the leased entry is the fresh appended one
      have hqid : (mark_ready now c₀).id = m.nextId :=
        (init_ok_fields m.nextId url m.max_connection_size m.pool_args
          m.use_cluster m.startup_nodes c₀ hinit).1
      have hcalls₀ : (mark_ready now c₀).active_calls = 0 :=
        (init_ok_fields m.nextId url m.max_connection_size m.pool_args
          m.use_cluster m.startup_nodes c₀ hinit).2.1
      have hpools : m₁.pools
          = pools_set m.pools url
              (incr_active_calls (ps ++ [mark_ready now c₀]) cid) := by
        rw [hm₁, hcid]
      have h3 := release_after_stamp_pools m₁ url cid now
        (ps ++ [mark_ready now c₀]) m.pools hpools
      obtain ⟨hurl, hother⟩ :=
        claim_C7_helper_counters _ m url cid now (ps ++ [mark_ready now c₀]) h3
      have hfreshq : ∀ r ∈ ps, r.id ≠ cid := by
        intro r hr
        rw [hcid, hqid]
        exact hfresh r hr
      have hmv : activeCallsOf m url cid = none := by
        unfold activeCallsOf
        rw [hlook]
        show (find_by_id ps cid).map RedisConnection.active_calls = none
        rw [find_by_id_none_fresh ps cid hfreshq]
        rfl
      constructor
      · rw [hurl cid, find_append_fresh ps (mark_ready now c₀) cid hfreshq,
          if_pos (hcid.symm : (mark_ready now c₀).id = cid), hmv]
        show some (mark_ready now c₀).active_calls = some 0
        rw [hcalls₀]
      · intro u c' hu
        rcases hu with hu | hc'
        · exact hother u c' hu
        · by_cases hu' : u = url
          · subst hu'
            rw [hurl c']
            rw [find_append_other ps (mark_ready now c₀) c'
              (by rw [← hcid]; exact fun hh => hc' hh.symm)]
            unfold activeCallsOf
            rw [hlook]
            rfl
          · exact hother u c' hu'
  · intro m url cid hnone u c'
    cases hlook : pools_lookup m.pools url with
    | some ps =>
      have hrel : (release_pool m url (some cid)).pools
          = pools_set m.pools url (decr_active_calls ps cid) := by
        unfold release_pool pools_getdd
        rw [hlook]
      rw [decr_noop_of_find_none ps cid (hnone ps hlook)] at hrel
      by_cases hu : u = url
      · subst hu
        unfold activeCallsOf
        rw [hrel, pools_lookup_set_self, hlook]
      · unfold activeCallsOf
        rw [hrel, pools_lookup_set_ne m.pools url u _ hu]
    | none =>
      have hrel : (release_pool m url (some cid)).pools
          = pools_set (m.pools ++ [(url, [])]) url (decr_active_calls [] cid) := by
        unfold release_pool pools_getdd
        rw [hlook]
      by_cases hu : u = url
      · subst hu
        unfold activeCallsOf
        rw [hrel, pools_lookup_set_self, hlook]
        rfl
      · unfold activeCallsOf
        rw [hrel, pools_lookup_set_ne _ url u _ hu,
          pools_lookup_append_key m.pools url u [] hlook, if_neg hu]

def wit7_m₁ : Manager :=
  ((get_pool wit4_m "redis://a" false 0).toOption.getD (wit4_m, 0)).1

/-- Witness for C7: on the four-entry state, acquiring (entry 2, counter 3)
and releasing brings its counter back to 3, its value before the acquire. -/
theorem claim_C7_witness :
    activeCallsOf (get_client_release (stamp_last_used wit7_m₁ "redis://a" 2 0)
        "redis://a" 2) "redis://a" 2
      = some ((activeCallsOf wit4_m "redis://a" 2).getD 0) :=
  (claim_C7_lease_release_roundtrip.1 wit4_m "redis://a" false 0 wit4_ps wit7_m₁ 2
    (by rfl) (by decide) (by rfl)).1

/-- C9: a `get_client` call that fails to yield a client leaves the
`active_calls` counter of every entry of every URL unchanged — the scoped
release that runs on the failure path holds no acquired entry (`connection`
is still `None`) and decrements nothing. -/
theorem claim_C9_failed_acquire_preserves_counters
    (m : Manager) (url : String) (g : Bool) (now : Int) (e : RMError)
    (h : (get_client_acquire m url g now).1 = Except.error e) :
    ∀ (u : String) (c' : Nat),
      activeCallsOf (get_client_acquire m url g now).2 u c'
        = activeCallsOf m u c' := by
  intro u c'
  unfold get_client_acquire at h ⊢
  cases hgp : get_pool m url g now with
  | ok pr =>
    obtain ⟨m₁, cid⟩ := pr
    rw [hgp] at h
    have h' : (Except.ok cid : Except RMError Nat) = Except.error e := h
    cases h'
  | error e' =>
    cases hlook : pools_lookup m.pools url with
    | some ps =>
      have hrel : (release_pool m url none).pools = m.pools := by
        unfold release_pool pools_getdd
        rw [hlook]
      show activeCallsOf (release_pool m url none) u c' = activeCallsOf m u c'
      unfold activeCallsOf
      rw [hrel]
    | none =>
      have hrel : (release_pool m url none).pools = m.pools ++ [(url, [])] := by
        unfold release_pool pools_getdd
        rw [hlook]
      show activeCallsOf (release_pool m url none) u c' = activeCallsOf m u c'
      unfold activeCallsOf
      rw [hrel, pools_lookup_append_key m.pools url u [] hlook]
      by_cases hu : u = url
      · rw [if_pos hu, hu, hlook]
        rfl
      · rw [if_neg hu]

/-- The empty manager every counterexample run starts from: floor 1,
`max_connection_size` 50, defaults otherwise, no URL registered. -/
def base_m : Manager := Manager.mkInit 1 50 none false none 180

/-- Witness for C9: a failed acquire on an unregistered URL leaves the (empty)
counter table unchanged. -/
theorem claim_C9_witness :
    activeCallsOf (get_client_acquire base_m "redis://w9" false 0).2
        "redis://w9" 0
      = activeCallsOf base_m "redis://w9" 0 :=
  claim_C9_failed_acquire_preserves_counters base_m "redis://w9" false 0
    RMError.valueError (by rfl) "redis://w9" 0

theorem cleanup_scan_fst (mi now : Int) (l : PoolList) :
    (cleanup_scan mi now l).1
      = l.filter (fun p => !(decide (p.active_calls = 0 ∧ now - p.last_used > mi))) := by
  induction l with
  | nil => rfl
  | cons p ps ih =>
    by_cases h : p.active_calls = 0 ∧ now - p.last_used > mi
    · simp only [cleanup_scan, if_pos h, List.filter_cons, decide_eq_true h,
        Bool.not_true, if_false]
      exact ih
    · simp only [cleanup_scan, if_neg h, List.filter_cons, decide_eq_false h,
        Bool.not_false, if_true]
      rw [ih]

theorem cleanup_scan_snd (mi now : Int) (l : PoolList) :
    (cleanup_scan mi now l).2
      = l.filter (fun p => decide (p.active_calls = 0 ∧ now - p.last_used > mi)) := by
  induction l with
  | nil => rfl
  | cons p ps ih =>
    by_cases h : p.active_calls = 0 ∧ now - p.last_used > mi
    · simp only [cleanup_scan, if_pos h, List.filter_cons, decide_eq_true h, if_true]
      rw [ih]
    · simp only [cleanup_scan, if_neg h, List.filter_cons, decide_eq_false h, if_false]
      exact ih

def leak_att1 : Except RMError Nat × Manager :=
  get_client_acquire base_m "redis://never-added" false 0

def leak_m1 : Manager := leak_att1.2

def leak_att2 : Except RMError Nat × Manager :=
  get_client_acquire leak_m1 "redis://never-added" false 1

def leak_clean : Manager := periodic_cleanup_tick leak_m1 1000

/-- C6 counterexample: in a reachable state (one failed `get_client` on an
unregistered URL leaked the URL into the `defaultdict` with an empty list), a
cleanup tick leaves the URL present with 0 entries — below the floor of 1 —
so "after every tick `len(pools[url]) >= floor` for every present URL" fails
as stated. -/
theorem claim_C6_counterexample :
    pools_lookup leak_clean.pools "redis://never-added" = some [] ∧
    ([] : PoolList).length < leak_clean.connection_pools_per_node_at_start := by
  constructor
  · rfl
  · decide

/-- C6 (amended): each cleanup tick closes and removes exactly the entries at
index ≥ floor with `active_calls = 0` and `now - last_used > max_idle_time`,
keeps all other entries in their original order (the kept list is a sublist),
never closes an active or below-floor entry, and preserves `len ≥ floor` for
every URL that had at least `floor` entries before the tick (URLs leaked into
the mapping with fewer than `floor` entries stay below the floor). -/
theorem claim_C6_amended_cleanup :
    (∀ (floorN : Nat) (mi now : Int) (ps : PoolList),
      cleanup_url floorN mi now ps
        = ps.take floorN ++ (ps.drop floorN).filter
            (fun p => !(decide (p.active_calls = 0 ∧ now - p.last_used > mi)))) ∧
    (∀ (floorN : Nat) (mi now : Int) (ps : PoolList),
      cleanup_closed floorN mi now ps
        = (ps.drop floorN).filter
            (fun p => decide (p.active_calls = 0 ∧ now - p.last_used > mi))) ∧
    (∀ (floorN : Nat) (mi now : Int) (ps : PoolList),
      ∀ p ∈ cleanup_closed floorN mi now ps,
        p.active_calls = 0 ∧ now - p.last_used > mi) ∧
    (∀ (floorN : Nat) (mi now : Int) (ps : PoolList),
      List.Sublist (cleanup_url floorN mi now ps) ps) ∧
    (∀ (m : Manager) (now : Int) (u : String) (ps : PoolList),
      pools_lookup m.pools u = some ps →
      pools_lookup (periodic_cleanup_tick m now).pools u
        = some (cleanup_url m.connection_pools_per_node_at_start
            m.max_idle_time now ps)) ∧
    (∀ (m : Manager) (now : Int) (u : String) (ps : PoolList),
      pools_lookup m.pools u = some ps →
      m.connection_pools_per_node_at_start ≤ ps.length →
      ∀ ps' : PoolList,
        pools_lookup (periodic_cleanup_tick m now).pools u = some ps' →
        m.connection_pools_per_node_at_start ≤ ps'.length) := by
  have hurl : ∀ (floorN : Nat) (mi now : Int) (ps : PoolList),
      cleanup_url floorN mi now ps
        = ps.take floorN ++ (ps.drop floorN).filter
            (fun p => !(decide (p.active_calls = 0 ∧ now - p.last_used > mi))) := by
    intro floorN mi now ps
    unfold cleanup_url
    rw [cleanup_scan_fst]
  have htick : ∀ (m : Manager) (now : Int) (u : String) (ps : PoolList),
      pools_lookup m.pools u = some ps →
      pools_lookup (periodic_cleanup_tick m now).pools u
        = some (cleanup_url m.connection_pools_per_node_at_start
            m.max_idle_time now ps) := by
    intro m now u ps hlook
    unfold periodic_cleanup_tick
    show pools_lookup (m.pools.map (fun kv => (kv.1, _))) u = _
    rw [pools_lookup_map, hlook]
    rfl
  refine ⟨hurl, ?_, ?_, ?_, htick, ?_⟩
  · intro floorN mi now ps
    unfold cleanup_closed
    rw [cleanup_scan_snd]
  · intro floorN mi now ps p hp
    unfold cleanup_closed at hp
    rw [cleanup_scan_snd] at hp
    exact of_decide_eq_true (List.mem_filter.mp hp).2
  · intro floorN mi now ps
    rw [hurl]
    have hsub : List.Sublist
        (ps.take floorN ++ (ps.drop floorN).filter
          (fun p => !(decide (p.active_calls = 0 ∧ now - p.last_used > mi))))
        (ps.take floorN ++ ps.drop floorN) :=
      List.Sublist.append_left (List.filter_sublist _) (ps.take floorN)
    rwa [List.take_append_drop] at hsub
  · intro m now u ps hlook hfloor ps' hlook'
    have hps' : ps' = cleanup_url m.connection_pools_per_node_at_start
        m.max_idle_time now ps :=
      Option.some.inj ((htick m now u ps hlook).symm.trans hlook').symm
    rw [hps', hurl, List.length_append, List.length_take,
      min_eq_left hfloor]
    exact Nat.le_add_right _ _

def wit6_ps : PoolList := [wit_conn 0 true 0, wit_conn 1 true 0, wit_conn 2 true 0]

def wit6_m : Manager :=
  { Manager.mkInit 1 50 none false none 180 with
    pools := [("redis://a", wit6_ps)], nextId := 3 }

def wit6_out : PoolList :=
  (pools_lookup (periodic_cleanup_tick wit6_m 1000).pools "redis://a").getD []

/-- Witness for C6 (amended): three idle entries above a floor of 1; a cleanup
tick at a time past `max_idle_time` keeps at least the floor. -/
theorem claim_C6_witness :
    wit6_m.connection_pools_per_node_at_start ≤ wit6_out.length :=
  claim_C6_amended_cleanup.2.2.2.2.2 wit6_m 1000 "redis://a" wit6_ps (by rfl)
    (by decide) wit6_out (by rfl)

/-- C1 (code bug): the first `get_client` on a never-registered URL fails
immediately with `ValueError`, but its `finally` release reads
`self._pools[url]` on the `defaultdict`, inserting the URL with an empty list;
a second `get_client` on the same (still never-registered) URL therefore
passes the membership test and fails with `NoHealthyPoolsException` instead of
the documented `ValueError` — the claim's "every such call" fails on the
second call. -/
theorem claim_C1_bug_second_unknown_acquire :
    leak_att1.1 = Except.error RMError.valueError ∧
    pools_lookup leak_m1.pools "redis://never-added" = some [] ∧
    leak_att2.1 = Except.error RMError.noHealthyPools := by
  refine ⟨rfl, rfl, rfl⟩

/-- C2 (code bug): after one failed `get_client` on an unregistered URL — a
state reachable by the public operations — the URL is present in the pools
mapping with an EMPTY list, so "every present URL maps to a non-empty list
with at least floor entries" is violated (floor here is 1). -/
theorem claim_C2_bug_empty_url_in_pools :
    pools_lookup leak_m1.pools "redis://never-added" = some [] ∧
    ([] : PoolList).length < leak_m1.connection_pools_per_node_at_start := by
  refine ⟨rfl, by decide⟩

def rec_m0 : Manager := Manager.mkInit 1 50 none false none 180

def rec_mA : Manager := (add_node_pool rec_m0 "redis://a" true 0).toOption.getD rec_m0

def rec_res : Manager × Option RMError :=
  recover_unhealthy_pools rec_mA true (fun _ => false) (fun _ => true)

/-- C3 (code bug): on a registered URL whose single entry fails its health
check while the freshly built replacement becomes ready, the recovery tick
aborts with `AttributeError` — the swap reads `new_pool.pool`, an attribute
`RedisConnection.__init__` never sets (the client lives in `redis_client`) —
so the entry's `health_status` stays false and its client is never swapped,
contrary to the claim (which matches the code's own tests, where mocks supply
the missing `pool` attribute). -/
theorem claim_C3_bug_recovery_swap_crashes :
    rec_res.2 = some RMError.attributeError ∧
    (pools_lookup rec_res.1.pools "redis://a").map
        (List.map RedisConnection.health_status) = some [false] ∧
    (pools_lookup rec_res.1.pools "redis://a").map
        (List.map RedisConnection.redis_client)
      = (pools_lookup rec_mA.pools "redis://a").map
          (List.map RedisConnection.redis_client) ∧
    (pools_lookup rec_res.1.pools "redis://a").map List.length
      = (pools_lookup rec_mA.pools "redis://a").map List.length := by
  refine ⟨rfl, rfl, rfl, rfl⟩

end RedisManagerModel
